import Mathlib

set_option maxHeartbeats 1000000

/-!
Verification development for `react_api.py`, a minimal ReAct agent loop.

The program text is embedded shallowly: Python strings become `List Char`,
`str.strip` / `str.split` / the `in` operator become executable Lean
functions with Python's semantics, `json.loads` / `json.dumps` are modelled
by an executable JSON parser / serializer over an inductive `Json` type,
and the `main` while-loop becomes an explicit state-passing function.
Python exceptions are modelled with `Except`.
-/

/-! ## Python string primitives over `List Char` -/

/-- The ASCII whitespace characters recognised by Python's `str.strip()`. -/
def isPySpace (c : Char) : Bool :=
  c = ' ' || c = '\t' || c = '\n' || c = '\r' || c = '\x0b' || c = '\x0c'

/-- Python `s.strip()`: remove leading and trailing whitespace. -/
def pyStrip (s : List Char) : List Char :=
  ((s.dropWhile isPySpace).reverse.dropWhile isPySpace).reverse

/-- Python's substring test `sep in s`. -/
def containsSub (sep : List Char) : List Char → Bool
  | [] => sep.isPrefixOf []
  | c :: rest => sep.isPrefixOf (c :: rest) || containsSub sep rest

/-- Worker for Python `s.split(sep)` (non-empty `sep`): scan left to right,
cutting at each non-overlapping occurrence of `sep`.  The fuel argument is
initialised to `s.length`, which always suffices because every step consumes
at least one character; the fuel-0 fallback is only reachable with `s = []`. -/
def pySplitAux (sep : List Char) : Nat → List Char → List Char → List (List Char)
  | 0, s, acc => [acc.reverse ++ s]
  | fuel + 1, s, acc =>
    if sep.isPrefixOf s then
      acc.reverse :: pySplitAux sep fuel (s.drop sep.length) []
    else
      match s with
      | [] => [acc.reverse]
      | c :: rest => pySplitAux sep fuel rest (c :: acc)

/-- Python `s.split(sep)`.  (Python raises on an empty separator; the code
under verification only splits on the non-empty literals `"Final Answer:"`,
`"Action:"`, `"Action Input:"` and `"\n"`.) -/
def pySplit (sep s : List Char) : List (List Char) :=
  if sep = [] then [s] else pySplitAux sep s.length s []

/-! ## Exceptions of the embedded program -/

/-- Errors raised by `extract_json`: `ValueError("No JSON object found")`,
`ValueError("No complete JSON object found")`, and the `json.loads`
decode error for a brace-balanced but structurally invalid block. -/
inductive ExtractErr where
  | notFound
  | incomplete
  | malformed
deriving DecidableEq

/-- Unhandled Python exceptions that can escape `main`. -/
inductive PyExn where
  /-- `IndexError: list index out of range` from a `split(...)[1]` on a
  marker that is absent. -/
  | indexError
  /-- A `ValueError` propagating out of `extract_json`. -/
  | extractError (e : ExtractErr)
  /-- An exception raised by a tool implementation during dispatch;
  the payload carries the exception's description. -/
  | toolError (msg : List Char)
deriving DecidableEq

/-- Python `xs[0]` on a `split` result (a `split` result is never empty,
so this total default is never exercised). -/
def pyGet0 (xs : List (List Char)) : List Char := xs.headD []

/-- Python `xs[1]` on a `split` result: raises `IndexError` when the
separator did not occur. -/
def pyGet1 (xs : List (List Char)) : Except PyExn (List Char) :=
  match xs with
  | _ :: x :: _ => .ok x
  | _ => .error .indexError

/-! ## JSON values, `json.loads` and `json.dumps` (models of the Python library) -/

/-- JSON values as produced by `json.loads`.  Numbers are modelled as
integers: the program under verification never manipulates fractional
number literals, so the float branch of the Python parser is not modelled. -/
inductive Json where
  | null
  | bool (b : Bool)
  | num (n : Int)
  | str (s : List Char)
  | arr (xs : List Json)
  | obj (fields : List (List Char × Json))

/-- JSON insignificant whitespace. -/
def jsonWSp (c : Char) : Bool := c = ' ' || c = '\t' || c = '\n' || c = '\r'

def skipWS (s : List Char) : List Char := s.dropWhile jsonWSp

/-- Parse a run of decimal digits. -/
def parseNat (s : List Char) : Option (Nat × List Char) :=
  let ds := s.takeWhile Char.isDigit
  if ds = [] then none
  else some (ds.foldl (fun acc c => acc * 10 + (c.toNat - 48)) 0, s.dropWhile Char.isDigit)

/-- Parse the body of a JSON string after the opening quote, handling the
single-character escapes.  (`\uXXXX` escapes are not modelled; the program
under verification never produces them.) -/
def parseStringBody : Nat → List Char → Option (List Char × List Char)
  | 0, _ => none
  | _ + 1, [] => none
  | fuel + 1, c :: cs =>
    if c = '"' then some ([], cs)
    else if c = '\\' then
      match cs with
      | [] => none
      | e :: cs2 =>
        let d : Option Char :=
          if e = '"' then some '"' else if e = '\\' then some '\\'
          else if e = '/' then some '/' else if e = 'b' then some '\x08'
          else if e = 'f' then some '\x0c' else if e = 'n' then some '\n'
          else if e = 'r' then some '\r' else if e = 't' then some '\t' else none
        match d with
        | none => none
        | some dc => (parseStringBody fuel cs2).map (fun p => (dc :: p.1, p.2))
    else (parseStringBody fuel cs).map (fun p => (c :: p.1, p.2))

mutual

/-- Recursive-descent JSON value parser (model of `json.loads`' grammar).
The fuel only bounds the nesting recursion; `jsonLoads` supplies more fuel
than the input length, which always suffices. -/
def parseValue : Nat → List Char → Option (Json × List Char)
  | 0, _ => none
  | fuel + 1, s =>
    match skipWS s with
    | [] => none
    | c :: rest =>
      if c = '\x7b' then
        match skipWS rest with
        | '\x7d' :: rest2 => some (.obj [], rest2)
        | _ => (parseMembers fuel rest).map (fun p => (.obj p.1, p.2))
      else if c = '[' then
        match skipWS rest with
        | ']' :: rest2 => some (.arr [], rest2)
        | _ => (parseItems fuel rest).map (fun p => (.arr p.1, p.2))
      else if c = '"' then
        (parseStringBody rest.length rest).map (fun p => (.str p.1, p.2))
      else if c = 't' then
        if ("rue".data).isPrefixOf rest then some (.bool true, rest.drop 3) else none
      else if c = 'f' then
        if ("alse".data).isPrefixOf rest then some (.bool false, rest.drop 4) else none
      else if c = 'n' then
        if ("ull".data).isPrefixOf rest then some (.null, rest.drop 3) else none
      else if c = '-' then
        (parseNat rest).map (fun p => (.num (-(p.1 : Int)), p.2))
      else if c.isDigit then
        (parseNat (c :: rest)).map (fun p => (.num (p.1 : Int), p.2))
      else none

/-- Parse the members of a JSON object after the opening brace. -/
def parseMembers : Nat → List Char → Option (List (List Char × Json) × List Char)
  | 0, _ => none
  | fuel + 1, s =>
    match skipWS s with
    | '"' :: rest =>
      match parseStringBody rest.length rest with
      | none => none
      | some (key, r1) =>
        match skipWS r1 with
        | ':' :: r2 =>
          match parseValue fuel r2 with
          | none => none
          | some (v, r3) =>
            match skipWS r3 with
            | ',' :: r4 => (parseMembers fuel r4).map (fun p => ((key, v) :: p.1, p.2))
            | '\x7d' :: r4 => some ([(key, v)], r4)
            | _ => none
        | _ => none
    | _ => none

/-- Parse the items of a JSON array after the opening bracket. -/
def parseItems : Nat → List Char → Option (List Json × List Char)
  | 0, _ => none
  | fuel + 1, s =>
    match parseValue fuel s with
    | none => none
    | some (v, r) =>
      match skipWS r with
      | ',' :: r2 => (parseItems fuel r2).map (fun p => (v :: p.1, p.2))
      | ']' :: r2 => some ([v], r2)
      | _ => none

end

/-- Model of `json.loads`: parse one value and require that only
whitespace remains (Python raises on trailing data). -/
def jsonLoads (s : List Char) : Option Json :=
  match parseValue (s.length + 1) s with
  | some (v, rest) => if skipWS rest = [] then some v else none
  | none => none

/-- Escaping used by `json.dumps` for string values. -/
def escapeChar (c : Char) : List Char :=
  if c = '"' then ['\\', '"']
  else if c = '\\' then ['\\', '\\']
  else if c = '\n' then ['\\', 'n']
  else if c = '\r' then ['\\', 'r']
  else if c = '\t' then ['\\', 't']
  else [c]

def dumpString (s : List Char) : List Char :=
  '"' :: (s.flatMap escapeChar) ++ ['"']

def intToChars (n : Int) : List Char := (toString n).data

/-- Serializer worker for the `json.dumps` model, with Python's default
separators `", "` and `": "`.  The fuel bounds the nesting depth. -/
def dumpsV : Nat → Json → List Char
  | 0, _ => []
  | fuel + 1, j =>
    match j with
    | .null => "null".data
    | .bool true => "true".data
    | .bool false => "false".data
    | .num n => intToChars n
    | .str s => dumpString s
    | .arr xs => '[' :: (List.intercalate (", ".data) (xs.map (dumpsV fuel))) ++ [']']
    | .obj fs =>
      '\x7b' :: (List.intercalate (", ".data)
        (fs.map (fun kv => dumpString kv.1 ++ ": ".data ++ dumpsV fuel kv.2))) ++ ['\x7d']

mutual

/-- Size of a JSON value; dominates its nesting depth, so it is a valid
fuel bound for `dumpsV`. -/
def jsize : Json → Nat
  | .null => 1
  | .bool _ => 1
  | .num _ => 1
  | .str _ => 1
  | .arr xs => 1 + jsizeL xs
  | .obj fs => 1 + jsizeF fs

def jsizeL : List Json → Nat
  | [] => 0
  | x :: xs => jsize x + jsizeL xs

def jsizeF : List (List Char × Json) → Nat
  | [] => 0
  | kv :: fs => jsize kv.2 + jsizeF fs

end

/-- Model of `json.dumps`. -/
def json_dumps (j : Json) : List Char := dumpsV (jsize j) j

/-! ## `extract_json` (react_api.py lines 30-44) -/

/-- `s.find("{")`: index of the first opening brace (`none` models `-1`). -/
def find_brace : List Char → Option Nat
  | [] => none
  | c :: cs => if c = '\x7b' then some 0 else (find_brace cs).map (· + 1)

/-- The scanning loop of `extract_json`: walk the characters from the first
brace keeping the running counter (`+1` on an opening, `-1` on a closing
brace); return the index at which the counter first returns to zero right
after a closing brace. -/
def scanBlock : List Char → Int → Nat → Option Nat
  | [], _, _ => none
  | c :: cs, counter, i =>
    if c = '\x7b' then scanBlock cs (counter + 1) (i + 1)
    else if c = '\x7d' then
      if counter - 1 = 0 then some i else scanBlock cs (counter - 1) (i + 1)
    else scanBlock cs counter (i + 1)

/-- `extract_json(s)`: locate the first balanced brace block and parse it
with `json.loads`.  `i` is kept relative to the first brace, so the Python
slice `s[start : i + 1]` becomes `(s.drop start).take (i + 1)`. -/
def extract_json (s : List Char) : Except ExtractErr Json :=
  match find_brace s with
  | none => .error .notFound
  | some start =>
    match scanBlock (s.drop start) 0 0 with
    | none => .error .incomplete
    | some i =>
      match jsonLoads ((s.drop start).take (i + 1)) with
      | some j => .ok j
      | none => .error .malformed

/-! ## Tool registry (react_api.py lines 67-127) -/

/-- A tool implementation: receives the parsed arguments object (the Python
call `tool(**tool_arguments)` expands it as keyword parameters) and either
returns its string result or raises an exception, carried as a message. -/
def ToolFun := Json → Except (List Char) (List Char)

/-- Python `dict` lookup for a parsed JSON object: on duplicate keys the
later binding wins, as in `json.loads`. -/
def lookupField (k : List Char) (fields : List (List Char × Json)) : Option Json :=
  (fields.reverse.find? (fun kv => kv.1 = k)).map (·.2)

/-- `get_weather(city, timestamp=None)`: ignores the timestamp and returns
`json.dumps({"temperature": 25, "weather": "sunny", "city": city})`.
The keyword expansion `tool(**args)` raises a `TypeError` when `args` is
not a mapping, has an unexpected key, or misses the required `city`. -/
def get_weather_fn : ToolFun := fun args =>
  match args with
  | .obj fields =>
    if fields.any (fun kv => ¬ (kv.1 = "city".data ∨ kv.1 = "timestamp".data)) then
      .error ("TypeError: get_weather() got an unexpected keyword argument".data)
    else
      match lookupField ("city".data) fields with
      | some city =>
        .ok (json_dumps (.obj [("temperature".data, .num 25),
          ("weather".data, .str ("sunny".data)), ("city".data, city)]))
      | none => .error ("TypeError: get_weather() missing 1 required positional argument: city".data)
  | _ => .error ("TypeError: argument of type other than mapping after **".data)

/-- `tool_maps` (react_api.py lines 124-127).  `get_current_time` reads the
real clock (`datetime.datetime.now()`), so its implementation is a
parameter of the model; `get_weather` is pure and modelled concretely. -/
def tool_maps (gct : ToolFun) : List Char → Option ToolFun := fun name =>
  if name = "get_current_time".data then some gct
  else if name = "get_weather".data then some get_weather_fn
  else none

/-! ## The response markers and classification helpers (main, lines 175-203) -/

/-- The literal marker `"Final Answer:"`. -/
def FAmark : List Char := "Final Answer:".data

/-- The literal marker `"Action:"`. -/
def ACTmark : List Char := "Action:".data

/-- The literal marker `"Action Input:"`. -/
def AImark : List Char := "Action Input:".data

/-- The newline separator used by the `split("\n")[0]` extractions. -/
def NLmark : List Char := "\n".data

/-- The observation segment opener appended after a tool call. -/
def OBSmark : List Char := "\nObservation: ".data

/-- `response_message.split("Final Answer:")[1].strip()` (line 184). -/
def final_answer_of (msg : List Char) : Except PyExn (List Char) :=
  match pyGet1 (pySplit FAmark msg) with
  | .error e => .error e
  | .ok part => .ok (pyStrip part)

/-- `response_message.split("Action:")[1].split("\n")[0].strip()` (line 189). -/
def action_name (msg : List Char) : Except PyExn (List Char) :=
  match pyGet1 (pySplit ACTmark msg) with
  | .error e => .error e
  | .ok part => .ok (pyStrip (pyGet0 (pySplit NLmark part)))

/-- `response_message.split("Action Input:")[1].split("\n")[0].strip()` (lines 190-192). -/
def action_input_of (msg : List Char) : Except PyExn (List Char) :=
  match pyGet1 (pySplit AImark msg) with
  | .error e => .error e
  | .ok part => .ok (pyStrip (pyGet0 (pySplit NLmark part)))

/-! ## One iteration of the agent loop (main, lines 175-203) -/

/-- How the body of one loop iteration ended. -/
inductive NextMove where
  /-- Fall through to the `while` condition (either the plain end of the
  body or the `continue` after a successful tool call). -/
  | continueLoop
  /-- The `break` taken when the action's tool name is not in `tool_maps`. -/
  | breakUnknownTool
deriving DecidableEq

/-- Result of one (non-aborted) iteration body. -/
structure StepOut where
  /-- `scratch_pad` after the iteration. -/
  pad : List Char
  /-- `final_answer` if `final_answer_found` was set during this iteration. -/
  answer : Option (List Char)
  /-- The tool invocations performed during this iteration (name and
  parsed arguments); the body performs at most one. -/
  calls : List (List Char × Json)
  next : NextMove

/-- The body of one `while` iteration after the iteration-cap check, given
the raw completion text `raw` (react_api.py lines 175-203): strip the
completion, append it to the scratch pad, record a final answer if the
`"Final Answer:"` marker occurs, and then — independently — process the
`"Action Input:"` marker, dispatching the named tool.  An `.error` result
is an unhandled Python exception escaping `main`. -/
def stepBody (tools : List Char → Option ToolFun) (pad raw : List Char) :
    Except PyExn StepOut :=
  let msg := pyStrip raw
  let pad1 := pad ++ '\n' :: msg
  let answerE : Except PyExn (Option (List Char)) :=
    if containsSub FAmark msg then
      match final_answer_of msg with
      | .error e => .error e
      | .ok a => .ok (some a)
    else .ok none
  match answerE with
  | .error e => .error e
  | .ok answer =>
    if containsSub AImark msg then
      match action_name msg with
      | .error e => .error e
      | .ok action =>
        match action_input_of msg with
        | .error e => .error e
        | .ok input =>
          match tools action with
          | none => .ok ⟨pad1, answer, [], .breakUnknownTool⟩
          | some t =>
            match extract_json input with
            | .error e => .error (.extractError e)
            | .ok args =>
              match t args with
              | .error e => .error (.toolError e)
              | .ok res => .ok ⟨pad1 ++ OBSmark ++ res, answer, [(action, args)], .continueLoop⟩
    else .ok ⟨pad1, answer, [], .continueLoop⟩

/-! ## The agent loop (main, lines 152-203) -/

/-- How the `while` loop of `main` ended. -/
inductive Outcome where
  /-- `final_answer_found` became true and the `while` condition ended the loop. -/
  | finished
  /-- The `break` on `current_iteration > 10` (max iterations reached). -/
  | maxIterations
  /-- The `break` on a tool name absent from `tool_maps`. -/
  | unknownTool
deriving DecidableEq

/-- Terminal description of one run of `main`. -/
structure RunResult where
  outcome : Outcome
  /-- The recorded `final_answer`, when one was found. -/
  answer : Option (List Char)
  /-- The final `scratch_pad`; for `maxIterations` this is exactly the
  transcript printed to standard output (the break happens before the
  fetched completion is appended). -/
  pad : List Char
  /-- Number of completion requests issued (`get_chat_completions` calls). -/
  requests : Nat
  /-- All tool invocations performed, in order. -/
  calls : List (List Char × Json)

/-- Result of running the loop. -/
inductive RunOut where
  /-- The loop ended (normally or via one of its `break`s). -/
  | done (r : RunResult)
  /-- An unhandled exception escaped `main`. -/
  | raised (e : PyExn)
  /-- Artifact of the fuelled embedding; unreachable from `agent_main`
  (the iteration cap stops the loop after at most 11 entries). -/
  | fuelOut

/-- The `while not final_answer_found` loop.  Each entry increments the
iteration counter and issues one completion request (`oracle n` is the raw
text of the `n`-th completion); the cap check `current_iteration > 10`
happens after the request but before the completion is read. -/
def loopRunAux (tools : List Char → Option ToolFun) (oracle : Nat → List Char) :
    Nat → List Char → Nat → List (List Char × Json) → RunOut
  | 0, _, _, _ => .fuelOut
  | fuel + 1, pad, iter, calls =>
    let raw := oracle (iter + 1)
    if iter + 1 > 10 then .done ⟨.maxIterations, none, pad, iter + 1, calls⟩
    else
      match stepBody tools pad raw with
      | .error e => .raised e
      | .ok out =>
        match out.next with
        | .breakUnknownTool => .done ⟨.unknownTool, out.answer, out.pad, iter + 1, calls ++ out.calls⟩
        | .continueLoop =>
          match out.answer with
          | some a => .done ⟨.finished, some a, out.pad, iter + 1, calls ++ out.calls⟩
          | none => loopRunAux tools oracle fuel out.pad (iter + 1) (calls ++ out.calls)

/-- One run of `main` with the given tool registry and model oracle,
starting from the initial scratch pad (the static prompt text plus
`"\nQuestion: " + question`; no claim depends on its content, so it is a
parameter).  Fuel 11 is always enough because of the iteration cap. -/
def agent_main (tools : List Char → Option ToolFun) (oracle : Nat → List Char)
    (initPad : List Char) : RunOut :=
  loopRunAux tools oracle 11 initPad 0 []

/-- Projection: requests issued by a completed run. -/
def runRequests : RunOut → Nat
  | .done r => r.requests
  | _ => 0

/-- Projection: number of tool invocations of a completed run. -/
def runCallCount : RunOut → Nat
  | .done r => r.calls.length
  | _ => 0

/-- Projection: outcome of a completed run. -/
def runOutcome : RunOut → Option Outcome
  | .done r => some r.outcome
  | _ => none

/-- Projection: recorded final answer of a completed run. -/
def runAnswer : RunOut → Option (List Char)
  | .done r => r.answer
  | _ => none

/-- A trivial stand-in implementation for the clock-reading
`get_current_time` tool, used to instantiate `tool_maps` in witnesses. -/
def gct0 : ToolFun := fun _ => .ok ("2026-10-12 00:00:00".data)

/-- The concrete registry with the stand-in clock tool. -/
def tools0 : List Char → Option ToolFun := tool_maps gct0


/-! ## Brace-depth specification vocabulary -/

/-- The running brace balance of a character list: `+1` per `'{'`, `-1`
per `'}'`.  This is the specification-side notion used to phrase what the
counter of `extract_json` computes. -/
def braceDepth : List Char → Int
  | [] => 0
  | c :: cs => (if c = '\x7b' then 1 else if c = '\x7d' then -1 else 0) + braceDepth cs

/-- A character list is a balanced brace block when it opens with `'{'`,
its total brace balance is zero, and no proper non-empty prefix is already
balanced — i.e. the depth counter first returns to zero exactly at its end. -/
def BalancedBlock (block : List Char) : Prop :=
  block.head? = some '\x7b' ∧ braceDepth block = 0 ∧
    ∀ k, k < block.length → 0 < k → braceDepth (block.take k) ≠ 0

/-! ## Lemmas about the string primitives -/

theorem containsSub_of_isPrefixOf {sep s : List Char} (h : sep.isPrefixOf s = true) :
    containsSub sep s = true := by
  cases s with
  | nil => simpa [containsSub] using h
  | cons c rest => simp [containsSub, h]

theorem containsSub_false_cons {sep c t} (h : containsSub sep (c :: t) = false) :
    containsSub sep t = false := by
  simp only [containsSub, Bool.or_eq_false_iff] at h
  exact h.2

theorem isPrefixOf_false_of_containsSub_false {sep s : List Char}
    (h : containsSub sep s = false) : sep.isPrefixOf s = false := by
  cases s with
  | nil => simpa [containsSub] using h
  | cons c rest =>
    simp only [containsSub, Bool.or_eq_false_iff] at h
    exact h.1

theorem containsSub_iff_parts (sep s : List Char) :
    containsSub sep s = true ↔ ∃ a b, s = a ++ sep ++ b := by
  constructor
  · intro h
    induction s with
    | nil =>
      simp only [containsSub] at h
      rw [List.isPrefixOf_iff_prefix] at h
      rcases h with ⟨t, ht⟩
      exact ⟨[], t, by simp [← ht]⟩
    | cons c rest ih =>
      simp only [containsSub, Bool.or_eq_true] at h
      rcases h with h | h
      · rw [List.isPrefixOf_iff_prefix] at h
        rcases h with ⟨t, ht⟩
        exact ⟨[], t, by simp [← ht]⟩
      · rcases ih h with ⟨a, b, hab⟩
        exact ⟨c :: a, b, by simp [hab]⟩
  · rintro ⟨a, b, rfl⟩
    induction a with
    | nil =>
      exact containsSub_of_isPrefixOf
        (List.isPrefixOf_iff_prefix.mpr (by simp [List.prefix_append]))
    | cons c a ih =>
      simp only [containsSub, List.cons_append, Bool.or_eq_true]
      right
      simpa using ih

theorem pySplitAux_ne_nil (sep : List Char) :
    ∀ fuel s acc, 1 ≤ (pySplitAux sep fuel s acc).length := by
  intro fuel
  induction fuel with
  | zero => intro s acc; simp [pySplitAux]
  | succ fuel ih =>
    intro s acc
    simp only [pySplitAux]
    split
    · simp
    · match s with
      | [] => simp
      | c :: rest => exact ih rest (c :: acc)

theorem pySplitAux_not_contains (sep : List Char) :
    ∀ fuel s acc, s.length ≤ fuel → containsSub sep s = false →
      pySplitAux sep fuel s acc = [acc.reverse ++ s] := by
  intro fuel
  induction fuel with
  | zero => intro s acc _ _; simp [pySplitAux]
  | succ fuel ih =>
    intro s acc hlen h
    have hp := isPrefixOf_false_of_containsSub_false h
    match s with
    | [] => simp [pySplitAux, hp]
    | c :: rest =>
      rw [show pySplitAux sep (fuel + 1) (c :: rest) acc
          = pySplitAux sep fuel rest (c :: acc) from by simp [pySplitAux, hp]]
      rw [ih rest (c :: acc) (by simpa using Nat.le_of_succ_le_succ hlen)
        (containsSub_false_cons h)]
      simp

theorem pySplitAux_parts (sep : List Char) (hsep : sep ≠ []) :
    ∀ fuel a acc (b : List Char), (a ++ sep ++ b).length ≤ fuel →
      containsSub sep (a ++ sep.dropLast) = false →
      containsSub sep b = false →
      pySplitAux sep fuel (a ++ sep ++ b) acc = [acc.reverse ++ a, b] := by
  have hsl : 1 ≤ sep.length := by
    cases sep with
    | nil => exact absurd rfl hsep
    | cons x xs => simp
  intro fuel
  induction fuel with
  | zero =>
    intro a acc b hlen _ _
    exfalso
    simp only [List.length_append] at hlen
    omega
  | succ fuel ih =>
    intro a acc b hlen h1 h2
    match a with
    | [] =>
      have hp : sep.isPrefixOf (sep ++ b) = true :=
        List.isPrefixOf_iff_prefix.mpr (List.prefix_append sep b)
      simp only [List.nil_append, pySplitAux, hp, if_true]
      rw [List.drop_left, pySplitAux_not_contains sep fuel b []
        (by simp only [List.length_append] at hlen; omega) h2]
      simp
    | c :: a' =>
      have hassoc : (c :: a') ++ sep ++ b = c :: (a' ++ sep ++ b) := by simp
      have hp : sep.isPrefixOf (c :: (a' ++ sep ++ b)) = false := by
        by_contra hne
        have hp' : sep <+: (c :: a') ++ sep ++ b := by
          rw [hassoc]
          rw [← List.isPrefixOf_iff_prefix]
          revert hne; cases sep.isPrefixOf (c :: (a' ++ sep ++ b)) <;> simp
        set a : List Char := c :: a' with ha
        have htake : (a ++ sep ++ b).take (a.length + sep.length - 1)
            = a ++ sep.dropLast := by
          rw [List.append_assoc, List.take_append_eq_append_take,
            List.take_of_length_le (by omega), List.take_append_eq_append_take,
            List.dropLast_eq_take]
          have h0 : a.length + sep.length - 1 - a.length - sep.length = 0 := by omega
          have h1' : a.length + sep.length - 1 - a.length = sep.length - 1 := by omega
          rw [h0, h1', List.take_zero, List.append_nil]
        have hpre : sep <+: (a ++ sep ++ b).take (a.length + sep.length - 1) := by
          rw [List.prefix_take_iff]
          constructor
          · simpa [List.append_assoc] using hp'
          · have : 1 ≤ a.length := by rw [ha]; simp
            omega
        rw [htake] at hpre
        have hc : containsSub sep (a ++ sep.dropLast) = true :=
          containsSub_of_isPrefixOf (List.isPrefixOf_iff_prefix.mpr hpre)
        rw [hc] at h1
        exact absurd h1 (by simp)
      rw [hassoc]
      have hstep : pySplitAux sep (fuel + 1) (c :: (a' ++ sep ++ b)) acc
          = pySplitAux sep fuel (a' ++ sep ++ b) (c :: acc) := by
        simp only [pySplitAux, hp]
        simp
      rw [hstep]
      rw [ih a' (c :: acc) b
        (by simp only [List.length_append, List.length_cons] at hlen ⊢; omega)
        (containsSub_false_cons (by simpa using h1)) h2]
      simp

theorem pySplit_parts (sep a b : List Char) (hsep : sep ≠ [])
    (h1 : containsSub sep (a ++ sep.dropLast) = false)
    (h2 : containsSub sep b = false) :
    pySplit sep (a ++ sep ++ b) = [a, b] := by
  rw [pySplit, if_neg hsep, pySplitAux_parts sep hsep _ a [] b le_rfl h1 h2]
  simp

theorem pySplitAux_two_le_iff (sep : List Char) (hsep : sep ≠ []) :
    ∀ fuel s acc, s.length ≤ fuel →
      (2 ≤ (pySplitAux sep fuel s acc).length ↔ containsSub sep s = true) := by
  intro fuel
  induction fuel with
  | zero =>
    intro s acc hlen
    have : s = [] := List.length_eq_zero.mp (Nat.le_zero.mp hlen)
    subst this
    simp [pySplitAux, containsSub, List.isPrefixOf_iff_prefix, hsep]
  | succ fuel ih =>
    intro s acc hlen
    simp only [pySplitAux]
    by_cases hp : sep.isPrefixOf s = true
    · simp only [hp, if_true, List.length_cons]
      constructor
      · intro _; exact containsSub_of_isPrefixOf hp
      · intro _
        have := pySplitAux_ne_nil sep fuel (s.drop sep.length) []
        omega
    · have hp' : sep.isPrefixOf s = false := by
        revert hp; cases sep.isPrefixOf s <;> simp
      simp only [hp', Bool.false_eq_true, if_false]
      match s with
      | [] =>
        simp only [List.length_singleton]
        constructor
        · omega
        · intro h
          rw [show containsSub sep [] = sep.isPrefixOf [] from rfl, hp'] at h
          exact absurd h (by simp)
      | c :: rest =>
        rw [ih rest (c :: acc) (by simpa using Nat.le_of_succ_le_succ hlen)]
        simp [containsSub, hp']

theorem pySplit_two_le_iff (sep s : List Char) (hsep : sep ≠ []) :
    2 ≤ (pySplit sep s).length ↔ containsSub sep s = true := by
  rw [pySplit, if_neg hsep]
  exact pySplitAux_two_le_iff sep hsep s.length s [] le_rfl

theorem pyGet1_ok_of_contains (sep s : List Char) (hsep : sep ≠ [])
    (h : containsSub sep s = true) :
    ∃ x, pyGet1 (pySplit sep s) = .ok x := by
  have h2 := (pySplit_two_le_iff sep s hsep).mpr h
  match hm : pySplit sep s with
  | [] => rw [hm] at h2; simp at h2
  | [x] => rw [hm] at h2; simp at h2
  | x :: y :: rest => exact ⟨y, rfl⟩

/-! ## Lemmas about `find_brace`, `scanBlock` and `extract_json` -/

theorem braceDepth_cons (ch : Char) (t : List Char) :
    braceDepth (ch :: t) = braceDepth [ch] + braceDepth t := by
  simp [braceDepth]

theorem find_brace_eq_none_iff (s : List Char) : find_brace s = none ↔ '\x7b' ∉ s := by
  induction s with
  | nil => simp [find_brace]
  | cons c cs ih =>
    by_cases h : c = '\x7b'
    · simp [find_brace, h]
    · simp only [find_brace, h, Bool.false_eq_true, if_false, Option.map_eq_none']
      rw [ih]
      constructor
      · intro hn hm
        rcases List.mem_cons.mp hm with he | hm2
        · exact h he.symm
        · exact hn hm2
      · intro hn hm
        exact hn (List.mem_cons_of_mem c hm)

theorem find_brace_append (pre t : List Char) (h : '\x7b' ∉ pre) :
    find_brace (pre ++ '\x7b' :: t) = some pre.length := by
  induction pre with
  | nil => simp [find_brace]
  | cons c cs ih =>
    have hc : ¬ c = '\x7b' := fun he => h (by simp [he])
    simp only [List.cons_append, find_brace, hc, Bool.false_eq_true, if_false,
      List.append_eq]
    rw [ih (fun hm => h (List.mem_cons_of_mem c hm))]
    simp

theorem ball_shift (ch : Char) (rest : List Char) (c c' : Int) (hc : c ≠ 0)
    (hc' : c' = c + braceDepth [ch]) :
    (∀ k, k ≤ (ch :: rest).length → c + braceDepth ((ch :: rest).take k) ≠ 0) ↔
    (∀ k, k ≤ rest.length → c' + braceDepth (rest.take k) ≠ 0) := by
  subst hc'
  constructor
  · intro h k hk
    have h2 := h (k + 1) (by simpa using Nat.succ_le_succ hk)
    rw [List.take_succ_cons, braceDepth_cons] at h2
    omega
  · intro h k hk
    match k with
    | 0 => simpa [braceDepth] using hc
    | k + 1 =>
      have h2 := h k (by simpa using Nat.le_of_succ_le_succ hk)
      rw [List.take_succ_cons, braceDepth_cons]
      omega

theorem scanBlock_eq_none_iff :
    ∀ (cs : List Char) (c : Int) (i : Nat), 1 ≤ c →
      (scanBlock cs c i = none ↔
        ∀ k, k ≤ cs.length → c + braceDepth (cs.take k) ≠ 0) := by
  intro cs
  induction cs with
  | nil =>
    intro c i hc
    simp only [scanBlock, List.length_nil]
    constructor
    · intro _ k hk
      have hk0 : k = 0 := Nat.le_zero.mp hk
      subst hk0
      simp only [List.take_nil, braceDepth]
      omega
    · intro _
      trivial
  | cons ch rest ih =>
    intro c i hc
    by_cases hbo : ch = '\x7b'
    · have hd : braceDepth [ch] = 1 := by rw [hbo]; decide
      rw [show scanBlock (ch :: rest) c i = scanBlock rest (c + 1) (i + 1) from by
        simp [scanBlock, hbo]]
      rw [ih (c + 1) (i + 1) (by omega)]
      exact (ball_shift ch rest c (c + 1) (by omega) (by omega)).symm
    · by_cases hbc : ch = '\x7d'
      · have hd : braceDepth [ch] = -1 := by rw [hbc]; decide
        by_cases hone : c - 1 = 0
        · rw [show scanBlock (ch :: rest) c i = some i from by
            simp [scanBlock, hbo, hbc, hone]]
          constructor
          · intro h
            exact absurd h (by simp)
          · intro h
            exfalso
            have h2 := h 1 (by simp only [List.length_cons]; omega)
            rw [show (ch :: rest).take 1 = [ch] from by simp] at h2
            omega
        · rw [show scanBlock (ch :: rest) c i = scanBlock rest (c - 1) (i + 1) from by
            simp [scanBlock, hbo, hbc, hone]]
          rw [ih (c - 1) (i + 1) (by omega)]
          exact (ball_shift ch rest c (c - 1) (by omega) (by omega)).symm
      · have hd : braceDepth [ch] = 0 := by
          simp only [braceDepth, if_neg hbo, if_neg hbc]
          omega
        rw [show scanBlock (ch :: rest) c i = scanBlock rest c (i + 1) from by
          simp [scanBlock, hbo, hbc]]
        rw [ih c (i + 1) hc]
        exact (ball_shift ch rest c c (by omega) (by omega)).symm

theorem scanBlock_first_zero :
    ∀ (cs : List Char) (c : Int) (i m : Nat), 1 ≤ c → 1 ≤ m → m ≤ cs.length →
      c + braceDepth (cs.take m) = 0 →
      (∀ k, k < m → c + braceDepth (cs.take k) ≠ 0) →
      scanBlock cs c i = some (i + m - 1) := by
  intro cs
  induction cs with
  | nil =>
    intro c i m _ hm hlen _ _
    simp only [List.length_nil] at hlen
    omega
  | cons ch rest ih =>
    intro c i m hc hm hlen hzero hmin
    obtain ⟨m', rfl⟩ : ∃ m', m = m' + 1 := ⟨m - 1, by omega⟩
    rw [List.take_succ_cons, braceDepth_cons] at hzero
    simp only [List.length_cons] at hlen
    by_cases hbo : ch = '\x7b'
    · have hd : braceDepth [ch] = 1 := by rw [hbo]; decide
      rw [hd] at hzero
      have hm' : 1 ≤ m' := by
        by_contra hz
        have hm0 : m' = 0 := by omega
        subst hm0
        simp only [List.take_zero, braceDepth] at hzero
        omega
      rw [show scanBlock (ch :: rest) c i = scanBlock rest (c + 1) (i + 1) from by
        simp [scanBlock, hbo]]
      rw [ih (c + 1) (i + 1) m' (by omega) hm' (by omega) (by omega)
        (fun k hk => by
          have h2 := hmin (k + 1) (by omega)
          rw [List.take_succ_cons, braceDepth_cons, hd] at h2
          omega)]
      congr 1
      omega
    · by_cases hbc : ch = '\x7d'
      · have hd : braceDepth [ch] = -1 := by rw [hbc]; decide
        rw [hd] at hzero
        by_cases hm0 : m' = 0
        · subst hm0
          simp only [List.take_zero, braceDepth] at hzero
          have hone : c - 1 = 0 := by omega
          rw [show scanBlock (ch :: rest) c i = some i from by
            simp [scanBlock, hbo, hbc, hone]]
          congr 1
        · have hne1 : ¬ (c - 1 = 0) := by
            have h2 := hmin 1 (by omega)
            rw [show (ch :: rest).take 1 = [ch] from by simp, hd] at h2
            omega
          rw [show scanBlock (ch :: rest) c i = scanBlock rest (c - 1) (i + 1) from by
            simp [scanBlock, hbo, hbc, hne1]]
          rw [ih (c - 1) (i + 1) m' (by omega) (by omega) (by omega) (by omega)
            (fun k hk => by
              have h2 := hmin (k + 1) (by omega)
              rw [List.take_succ_cons, braceDepth_cons, hd] at h2
              omega)]
          congr 1
          omega
      · have hd : braceDepth [ch] = 0 := by
          simp only [braceDepth, if_neg hbo, if_neg hbc]
          omega
        rw [hd] at hzero
        have hm' : 1 ≤ m' := by
          by_contra hz
          have hm0 : m' = 0 := by omega
          subst hm0
          simp only [List.take_zero, braceDepth] at hzero
          omega
        rw [show scanBlock (ch :: rest) c i = scanBlock rest c (i + 1) from by
          simp [scanBlock, hbo, hbc]]
        rw [ih c (i + 1) m' hc hm' (by omega) (by omega)
          (fun k hk => by
            have h2 := hmin (k + 1) (by omega)
            rw [List.take_succ_cons, braceDepth_cons, hd] at h2
            omega)]
        congr 1
        omega

theorem extract_json_eq_find_some (s : List Char) (start : Nat)
    (hf : find_brace s = some start) :
    extract_json s =
      (match scanBlock (s.drop start) 0 0 with
        | none => Except.error ExtractErr.incomplete
        | some i =>
          match jsonLoads ((s.drop start).take (i + 1)) with
          | some j => Except.ok j
          | none => Except.error ExtractErr.malformed) := by
  rw [extract_json, hf]

theorem extract_json_eq_of_parts (s : List Char) (start i : Nat) (j : Json)
    (hf : find_brace s = some start)
    (hs : scanBlock (s.drop start) 0 0 = some i)
    (hj : jsonLoads ((s.drop start).take (i + 1)) = some j) :
    extract_json s = .ok j := by
  rw [extract_json_eq_find_some s start hf]
  show (match scanBlock (s.drop start) 0 0 with
    | none => Except.error ExtractErr.incomplete
    | some i =>
      match jsonLoads ((s.drop start).take (i + 1)) with
      | some j => Except.ok j
      | none => Except.error ExtractErr.malformed) = Except.ok j
  rw [hs]
  show (match jsonLoads ((s.drop start).take (i + 1)) with
    | some j => Except.ok j
    | none => Except.error ExtractErr.malformed) = Except.ok j
  rw [hj]

theorem extract_json_notFound_iff (s : List Char) :
    extract_json s = .error .notFound ↔ '\x7b' ∉ s := by
  rw [← find_brace_eq_none_iff]
  constructor
  · intro h
    cases hfb : find_brace s with
    | none => rfl
    | some start =>
      exfalso
      have hEqF := extract_json_eq_find_some s start hfb
      rw [hEqF] at h
      cases hsb : scanBlock (s.drop start) 0 0 with
      | none =>
        rw [hsb] at h
        have h2 : Except.error ExtractErr.incomplete = Except.error ExtractErr.notFound := h
        simp at h2
      | some idx =>
        rw [hsb] at h
        have h2 : (match jsonLoads ((s.drop start).take (idx + 1)) with
          | some j => Except.ok j
          | none => Except.error ExtractErr.malformed) = Except.error ExtractErr.notFound := h
        cases hjl : jsonLoads ((s.drop start).take (idx + 1)) with
        | none =>
          rw [hjl] at h2
          have h3 : Except.error ExtractErr.malformed = Except.error ExtractErr.notFound := h2
          simp at h3
        | some j =>
          rw [hjl] at h2
          have h3 : Except.ok j = Except.error ExtractErr.notFound := h2
          simp at h3
  · intro h
    rw [extract_json, h]

theorem extract_json_incomplete_iff_scan (pre rest : List Char) (hpre : '\x7b' ∉ pre) :
    extract_json (pre ++ '\x7b' :: rest) = .error .incomplete ↔
      scanBlock rest 1 1 = none := by
  have hf := find_brace_append pre rest hpre
  have hEqF := extract_json_eq_find_some (pre ++ '\x7b' :: rest) pre.length hf
  rw [List.drop_left pre ('\x7b' :: rest)] at hEqF
  rw [show scanBlock ('\x7b' :: rest) 0 0 = scanBlock rest 1 1 from by
    simp [scanBlock]] at hEqF
  rw [hEqF]
  constructor
  · intro h
    cases hsb : scanBlock rest 1 1 with
    | none => rfl
    | some idx =>
      exfalso
      rw [hsb] at h
      have h2 : (match jsonLoads (('\x7b' :: rest).take (idx + 1)) with
        | some j => Except.ok j
        | none => Except.error ExtractErr.malformed) = Except.error ExtractErr.incomplete := h
      cases hjl : jsonLoads (('\x7b' :: rest).take (idx + 1)) with
      | none =>
        rw [hjl] at h2
        have h3 : Except.error ExtractErr.malformed = Except.error ExtractErr.incomplete := h2
        simp at h3
      | some j =>
        rw [hjl] at h2
        have h3 : Except.ok j = Except.error ExtractErr.incomplete := h2
        simp at h3
  · intro h
    rw [h]

theorem claimBall_iff (rest : List Char) :
    (∀ k, k ≤ rest.length → (1 : Int) + braceDepth (rest.take k) ≠ 0) ↔
    (∀ k, k ≤ rest.length + 1 → 0 < k → braceDepth (('\x7b' :: rest).take k) ≠ 0) := by
  constructor
  · intro h k hk hpos
    obtain ⟨k', rfl⟩ : ∃ k', k = k' + 1 := ⟨k - 1, by omega⟩
    rw [List.take_succ_cons, braceDepth_cons,
      show braceDepth ['\x7b'] = 1 from by decide]
    have h2 := h k' (by omega)
    omega
  · intro h k hk
    have h2 := h (k + 1) (by omega) (by omega)
    rw [List.take_succ_cons, braceDepth_cons,
      show braceDepth ['\x7b'] = 1 from by decide] at h2
    omega

theorem take_append_le {α : Type} (l₁ l₂ : List α) (n : Nat) (h : n ≤ l₁.length) :
    (l₁ ++ l₂).take n = l₁.take n := by
  rw [List.take_append_eq_append_take, Nat.sub_eq_zero_of_le h, List.take_zero,
    List.append_nil]

/-- Claim C1: for every input string that contains a balanced JSON object
starting at the first `'{'` — a block whose brace-depth counter (increment
on `'{'`, decrement on `'}'`) first returns to zero exactly at the block's
end, and which parses as JSON — `extract_json` returns exactly that object,
regardless of any trailing text after the matching close brace, nested
braces being handled by the depth counting. -/
theorem extract_json_balanced_block_spec (pre block post : List Char) (j : Json)
    (hpre : '\x7b' ∉ pre) (hb : BalancedBlock block)
    (hj : jsonLoads block = some j) :
    extract_json (pre ++ block ++ post) = .ok j := by
  obtain ⟨hhead, hdz, hmin⟩ := hb
  obtain ⟨brest, rfl⟩ : ∃ brest, block = '\x7b' :: brest := by
    cases block with
    | nil => simp at hhead
    | cons b bs =>
      refine ⟨bs, ?_⟩
      simp only [List.head?_cons, Option.some.injEq] at hhead
      rw [hhead]
  have hd1 : braceDepth ['\x7b'] = 1 := by decide
  rw [braceDepth_cons, hd1] at hdz
  have hbrest : 1 ≤ brest.length := by
    by_contra hz
    have hn : brest = [] := by
      cases brest with
      | nil => rfl
      | cons x xs => simp at hz
    subst hn
    simp [braceDepth] at hdz
  rw [show pre ++ ('\x7b' :: brest) ++ post = pre ++ '\x7b' :: (brest ++ post) from by simp]
  have hf : find_brace (pre ++ '\x7b' :: (brest ++ post)) = some pre.length :=
    find_brace_append pre (brest ++ post) hpre
  have hscan : scanBlock ((pre ++ '\x7b' :: (brest ++ post)).drop pre.length) 0 0
      = some brest.length := by
    rw [List.drop_left pre ('\x7b' :: (brest ++ post))]
    rw [show scanBlock ('\x7b' :: (brest ++ post)) 0 0 = scanBlock (brest ++ post) 1 1 from by
      simp [scanBlock]]
    rw [scanBlock_first_zero (brest ++ post) 1 1 brest.length (by omega) hbrest
      (by simp only [List.length_append]; omega)
      (by rw [List.take_left]; omega)
      (fun k hk => by
        have h2 := hmin (k + 1) (by simp only [List.length_cons]; omega) (by omega)
        rw [List.take_succ_cons, braceDepth_cons, hd1] at h2
        rw [take_append_le brest post k (by omega)]
        omega)]
    congr 1
    omega
  refine extract_json_eq_of_parts _ pre.length brest.length j hf hscan ?_
  rw [List.drop_left pre ('\x7b' :: (brest ++ post)), List.take_succ_cons, List.take_left]
  exact hj

/-- Witness for C1 at the spec's example: input
`noise {"a": {"b": 1}} trailing` yields the object `{"a": {"b": 1}}`. -/
theorem extract_json_balanced_block_spec_witness :
    extract_json ("noise \x7b\"a\": \x7b\"b\": 1\x7d\x7d trailing".data) =
      .ok (.obj [("a".data, .obj [("b".data, .num 1)])]) :=
  extract_json_balanced_block_spec ("noise ".data) ("\x7b\"a\": \x7b\"b\": 1\x7d\x7d".data)
    (" trailing".data) (.obj [("a".data, .obj [("b".data, .num 1)])])
    (by decide) ⟨by decide, by decide, by decide⟩ (by rfl)

/-- Claim C5: `extract_json` fails with the not-found `ValueError` exactly
when the input has no `'{'` at all, and, for an input whose suffix starting
at the first `'{'` never returns the depth counter to zero, it fails with
the incomplete `ValueError` (never a partial or best-effort parse); in
particular the input `{"a": 1` yields the incomplete error. -/
theorem extract_json_error_conditions :
    (∀ s : List Char, extract_json s = .error .notFound ↔ '\x7b' ∉ s) ∧
    (∀ pre rest : List Char, '\x7b' ∉ pre →
      (extract_json (pre ++ '\x7b' :: rest) = .error .incomplete ↔
        ∀ k, k ≤ rest.length + 1 → 0 < k →
          braceDepth (('\x7b' :: rest).take k) ≠ 0)) ∧
    extract_json ("\x7b\"a\": 1".data) = .error .incomplete := by
  refine ⟨extract_json_notFound_iff, ?_, by rfl⟩
  intro pre rest hpre
  rw [extract_json_incomplete_iff_scan pre rest hpre,
    scanBlock_eq_none_iff rest 1 1 (by omega)]
  exact claimBall_iff rest

/-- Witness for C5: the not-found direction at a concrete brace-free input,
and the incomplete characterisation applied at a concrete unbalanced input. -/
theorem extract_json_error_conditions_witness :
    extract_json ("no json".data) = .error .notFound ∧
    extract_json (("x".data) ++ '\x7b' :: ("\"a\": 1".data)) = .error .incomplete :=
  ⟨(extract_json_error_conditions.1 ("no json".data)).mpr (by decide),
   (extract_json_error_conditions.2.1 ("x".data) ("\"a\": 1".data) (by decide)).mpr
     (by decide)⟩

/-! ## Shape lemmas for one loop iteration -/

theorem stepBody_no_markers (tools : List Char → Option ToolFun) (pad raw : List Char)
    (hFA : containsSub FAmark (pyStrip raw) = false)
    (hAI : containsSub AImark (pyStrip raw) = false) :
    stepBody tools pad raw = .ok ⟨pad ++ '\n' :: pyStrip raw, none, [], .continueLoop⟩ := by
  rw [stepBody]
  simp only [hFA, hAI, Bool.false_eq_true, if_false]

theorem pySplit_not_contains (sep s : List Char) (hsep : sep ≠ [])
    (h : containsSub sep s = false) : pySplit sep s = [s] := by
  rw [pySplit, if_neg hsep, pySplitAux_not_contains sep s.length s [] le_rfl h]
  simp

theorem action_name_indexError (msg : List Char)
    (hACT : containsSub ACTmark msg = false) :
    action_name msg = .error .indexError := by
  rw [action_name, pySplit_not_contains ACTmark msg (by decide) hACT]
  rfl

theorem final_answer_of_ok (msg : List Char)
    (hFA : containsSub FAmark msg = true) :
    ∃ ans, final_answer_of msg = .ok ans := by
  obtain ⟨x, hx⟩ := pyGet1_ok_of_contains FAmark msg (by decide) hFA
  exact ⟨pyStrip x, by rw [final_answer_of, hx]⟩

theorem action_input_of_ok (msg : List Char)
    (hAI : containsSub AImark msg = true) :
    ∃ inp, action_input_of msg = .ok inp := by
  obtain ⟨x, hx⟩ := pyGet1_ok_of_contains AImark msg (by decide) hAI
  exact ⟨pyStrip (pyGet0 (pySplit NLmark x)), by rw [action_input_of, hx]⟩

theorem stepBody_unknown_tool (tools : List Char → Option ToolFun)
    (pad raw a : List Char)
    (hFA : containsSub FAmark (pyStrip raw) = false)
    (hAI : containsSub AImark (pyStrip raw) = true)
    (hact : action_name (pyStrip raw) = .ok a)
    (htool : tools a = none) :
    stepBody tools pad raw = .ok ⟨pad ++ '\n' :: pyStrip raw, none, [], .breakUnknownTool⟩ := by
  obtain ⟨inp, hinp⟩ := action_input_of_ok (pyStrip raw) hAI
  rw [stepBody]
  simp only [hFA, hAI, Bool.false_eq_true, if_false, if_true, hact, hinp, htool]

theorem stepBody_action_without_marker (tools : List Char → Option ToolFun)
    (pad raw : List Char)
    (hFA : containsSub FAmark (pyStrip raw) = false)
    (hAI : containsSub AImark (pyStrip raw) = true)
    (hACT : containsSub ACTmark (pyStrip raw) = false) :
    stepBody tools pad raw = .error .indexError := by
  rw [stepBody]
  simp only [hFA, hAI, Bool.false_eq_true, if_false, if_true,
    action_name_indexError (pyStrip raw) hACT]

theorem stepBody_dispatch_ok (tools : List Char → Option ToolFun)
    (pad raw a inp res : List Char) (t : ToolFun) (args : Json)
    (hFA : containsSub FAmark (pyStrip raw) = false)
    (hAI : containsSub AImark (pyStrip raw) = true)
    (hact : action_name (pyStrip raw) = .ok a)
    (hinp : action_input_of (pyStrip raw) = .ok inp)
    (htool : tools a = some t)
    (hargs : extract_json inp = .ok args)
    (hres : t args = .ok res) :
    stepBody tools pad raw =
      .ok ⟨(pad ++ '\n' :: pyStrip raw) ++ OBSmark ++ res, none, [(a, args)], .continueLoop⟩ := by
  rw [stepBody]
  simp only [hFA, hAI, Bool.false_eq_true, if_false, if_true, hact, hinp, htool, hargs, hres]

theorem stepBody_dispatch_ok_with_answer (tools : List Char → Option ToolFun)
    (pad raw a inp res ans : List Char) (t : ToolFun) (args : Json)
    (hFA : containsSub FAmark (pyStrip raw) = true)
    (hans : final_answer_of (pyStrip raw) = .ok ans)
    (hAI : containsSub AImark (pyStrip raw) = true)
    (hact : action_name (pyStrip raw) = .ok a)
    (hinp : action_input_of (pyStrip raw) = .ok inp)
    (htool : tools a = some t)
    (hargs : extract_json inp = .ok args)
    (hres : t args = .ok res) :
    stepBody tools pad raw =
      .ok ⟨(pad ++ '\n' :: pyStrip raw) ++ OBSmark ++ res, some ans, [(a, args)],
        .continueLoop⟩ := by
  rw [stepBody]
  simp only [hFA, hAI, if_true, hans, hact, hinp, htool, hargs, hres]

theorem stepBody_tool_raises (tools : List Char → Option ToolFun)
    (pad raw a inp e : List Char) (t : ToolFun) (args : Json)
    (hFA : containsSub FAmark (pyStrip raw) = false)
    (hAI : containsSub AImark (pyStrip raw) = true)
    (hact : action_name (pyStrip raw) = .ok a)
    (hinp : action_input_of (pyStrip raw) = .ok inp)
    (htool : tools a = some t)
    (hargs : extract_json inp = .ok args)
    (hres : t args = .error e) :
    stepBody tools pad raw = .error (.toolError e) := by
  rw [stepBody]
  simp only [hFA, hAI, Bool.false_eq_true, if_false, if_true, hact, hinp, htool, hargs, hres]

theorem stepBody_extract_raises (tools : List Char → Option ToolFun)
    (pad raw a inp : List Char) (t : ToolFun) (e : ExtractErr)
    (hFA : containsSub FAmark (pyStrip raw) = false)
    (hAI : containsSub AImark (pyStrip raw) = true)
    (hact : action_name (pyStrip raw) = .ok a)
    (hinp : action_input_of (pyStrip raw) = .ok inp)
    (htool : tools a = some t)
    (hargs : extract_json inp = .error e) :
    stepBody tools pad raw = .error (.extractError e) := by
  rw [stepBody]
  simp only [hFA, hAI, Bool.false_eq_true, if_false, if_true, hact, hinp, htool, hargs]

theorem stepBody_final_answer_only (tools : List Char → Option ToolFun)
    (pad raw ans : List Char)
    (hFA : containsSub FAmark (pyStrip raw) = true)
    (hans : final_answer_of (pyStrip raw) = .ok ans)
    (hAI : containsSub AImark (pyStrip raw) = false) :
    stepBody tools pad raw = .ok ⟨pad ++ '\n' :: pyStrip raw, some ans, [], .continueLoop⟩ := by
  rw [stepBody]
  simp only [hFA, hAI, Bool.false_eq_true, if_false, if_true, hans]

/-! ## Shape lemmas for the loop -/

theorem loopRunAux_cap (tools : List Char → Option ToolFun) (oracle : Nat → List Char)
    (fuel : Nat) (pad : List Char) (iter : Nat) (calls : List (List Char × Json))
    (h : iter + 1 > 10) :
    loopRunAux tools oracle (fuel + 1) pad iter calls
      = .done ⟨.maxIterations, none, pad, iter + 1, calls⟩ := by
  simp only [loopRunAux]
  rw [if_pos h]

theorem loopRunAux_of_step_error (tools : List Char → Option ToolFun)
    (oracle : Nat → List Char) (fuel : Nat) (pad : List Char) (iter : Nat)
    (calls : List (List Char × Json)) (e : PyExn)
    (hiter : ¬ iter + 1 > 10)
    (h : stepBody tools pad (oracle (iter + 1)) = .error e) :
    loopRunAux tools oracle (fuel + 1) pad iter calls = .raised e := by
  simp only [loopRunAux]
  rw [if_neg hiter, h]

theorem loopRunAux_of_step_break (tools : List Char → Option ToolFun)
    (oracle : Nat → List Char) (fuel : Nat) (pad p : List Char) (iter : Nat)
    (calls cs : List (List Char × Json)) (ans : Option (List Char))
    (hiter : ¬ iter + 1 > 10)
    (h : stepBody tools pad (oracle (iter + 1)) = .ok ⟨p, ans, cs, .breakUnknownTool⟩) :
    loopRunAux tools oracle (fuel + 1) pad iter calls
      = .done ⟨.unknownTool, ans, p, iter + 1, calls ++ cs⟩ := by
  simp only [loopRunAux]
  rw [if_neg hiter, h]

theorem loopRunAux_of_step_answer (tools : List Char → Option ToolFun)
    (oracle : Nat → List Char) (fuel : Nat) (pad p ans : List Char) (iter : Nat)
    (calls cs : List (List Char × Json))
    (hiter : ¬ iter + 1 > 10)
    (h : stepBody tools pad (oracle (iter + 1)) = .ok ⟨p, some ans, cs, .continueLoop⟩) :
    loopRunAux tools oracle (fuel + 1) pad iter calls
      = .done ⟨.finished, some ans, p, iter + 1, calls ++ cs⟩ := by
  simp only [loopRunAux]
  rw [if_neg hiter, h]

theorem loopRunAux_of_step_continue (tools : List Char → Option ToolFun)
    (oracle : Nat → List Char) (fuel : Nat) (pad p : List Char) (iter : Nat)
    (calls cs : List (List Char × Json))
    (hiter : ¬ iter + 1 > 10)
    (h : stepBody tools pad (oracle (iter + 1)) = .ok ⟨p, none, cs, .continueLoop⟩) :
    loopRunAux tools oracle (fuel + 1) pad iter calls
      = loopRunAux tools oracle fuel p (iter + 1) (calls ++ cs) := by
  simp only [loopRunAux]
  rw [if_neg hiter, h]

theorem pad_prefix_obs (p x y z : List Char) : p <+: ((p ++ x) ++ y) ++ z := by
  simp only [List.append_assoc]
  exact List.prefix_append _ _

theorem stepBody_pad_extends (tools : List Char → Option ToolFun) (pad raw : List Char)
    (out : StepOut) (h : stepBody tools pad raw = .ok out) : pad <+: out.pad := by
  rw [stepBody] at h
  repeat' split at h
  all_goals first
    | (injection h with h3
       subst h3
       simp only [List.append_assoc, List.cons_append]
       exact List.prefix_append _ _)
    | exact absurd h (by simp)

theorem loopRunAux_pad_extends (tools : List Char → Option ToolFun)
    (oracle : Nat → List Char) :
    ∀ fuel pad iter calls r,
      loopRunAux tools oracle fuel pad iter calls = .done r → pad <+: r.pad := by
  intro fuel
  induction fuel with
  | zero =>
    intro pad iter calls r h
    exact absurd h (by simp [loopRunAux])
  | succ fuel ih =>
    intro pad iter calls r h
    simp only [loopRunAux] at h
    by_cases hcap : iter + 1 > 10
    · rw [if_pos hcap] at h
      injection h with h3
      subst h3
      exact List.prefix_rfl
    · rw [if_neg hcap] at h
      cases hstep : stepBody tools pad (oracle (iter + 1)) with
      | error e =>
        rw [hstep] at h
        exact absurd h (by simp)
      | ok out =>
        rw [hstep] at h
        have hpe := stepBody_pad_extends tools pad (oracle (iter + 1)) out hstep
        match hout : out with
        | ⟨p, ans, cs, nx⟩ =>
          cases nx with
          | breakUnknownTool =>
            have h2 : RunOut.done ⟨.unknownTool, ans, p, iter + 1, calls ++ cs⟩
                = .done r := h
            injection h2 with h3
            subst h3
            exact hpe
          | continueLoop =>
            cases ans with
            | some a =>
              have h2 : RunOut.done ⟨.finished, some a, p, iter + 1, calls ++ cs⟩
                  = .done r := h
              injection h2 with h3
              subst h3
              exact hpe
            | none =>
              have h2 : loopRunAux tools oracle fuel p (iter + 1) (calls ++ cs)
                  = .done r := h
              exact hpe.trans (ih p (iter + 1) (calls ++ cs) r h2)

/-! ## Claim theorems about the agent loop -/

/-- Claim C8: the transcript is append-only.  Every successful iteration
body only extends the scratch pad — the previous value is a prefix of the
new one, both when the completion is appended and when an observation is
appended — and consequently over any completed run the pad at any earlier
point (in particular the initial one) is a prefix of the final pad;
nothing appended is ever rewritten or removed and order is preserved. -/
theorem transcript_append_only :
    (∀ (tools : List Char → Option ToolFun) (pad raw : List Char) (out : StepOut),
      stepBody tools pad raw = .ok out → pad <+: out.pad) ∧
    (∀ (tools : List Char → Option ToolFun) (oracle : Nat → List Char)
      (fuel : Nat) (pad : List Char) (iter : Nat)
      (calls : List (List Char × Json)) (r : RunResult),
      loopRunAux tools oracle fuel pad iter calls = .done r → pad <+: r.pad) :=
  ⟨stepBody_pad_extends, fun tools oracle => loopRunAux_pad_extends tools oracle⟩

/-- Witness for C8: one concrete iteration extends the pad. -/
theorem transcript_append_only_witness :
    stepBody tools0 ("Q".data) ("Thought: working".data)
        = .ok ⟨"Q".data ++ '\n' :: "Thought: working".data, none, [], .continueLoop⟩ ∧
    ("Q".data) <+: ("Q".data ++ '\n' :: "Thought: working".data) :=
  ⟨rfl, by
    have h := transcript_append_only.1 tools0 ("Q".data) ("Thought: working".data)
      ⟨"Q".data ++ '\n' :: "Thought: working".data, none, [], .continueLoop⟩ rfl
    exact h⟩

/-- Claim C10: a model response containing the marker `"Action Input:"` but
not the substring `"Action:"` (and no `"Final Answer:"`) makes the run
raise an unhandled `IndexError` during action-name extraction
(`split("Action:")[1]` on a one-element list), instead of passing through
or aborting cleanly. -/
theorem action_input_without_action_marker_raises
    (tools : List Char → Option ToolFun) (oracle : Nat → List Char) (pad : List Char)
    (hFA : containsSub FAmark (pyStrip (oracle 1)) = false)
    (hAI : containsSub AImark (pyStrip (oracle 1)) = true)
    (hACT : containsSub ACTmark (pyStrip (oracle 1)) = false) :
    agent_main tools oracle pad = .raised .indexError := by
  rw [agent_main]
  exact loopRunAux_of_step_error tools oracle 10 pad 0 [] .indexError (by omega)
    (stepBody_action_without_marker tools pad (oracle 1) hFA hAI hACT)

/-- Witness for C10 at a concrete response. -/
theorem action_input_without_action_marker_raises_witness :
    agent_main tools0 (fun _ => "Action Input: \x7b\x7d".data) [] = .raised .indexError :=
  action_input_without_action_marker_raises tools0 (fun _ => "Action Input: \x7b\x7d".data)
    [] (by decide) (by decide) (by decide)

/-- Claim C4: an action whose tool name is absent from the registry always
ends the run in the unknown-tool abort: the loop breaks after the logged
error, the result is `.done` (no exception), no call is recorded, and the
conclusion does not depend on the action input parsing at all — the JSON
extractor is never applied (the witness exercises this with an unparseable
action input). -/
theorem unknown_tool_aborts_cleanly (tools : List Char → Option ToolFun)
    (oracle : Nat → List Char) (fuel : Nat) (pad : List Char) (iter : Nat)
    (calls : List (List Char × Json)) (a : List Char)
    (hiter : iter + 1 ≤ 10)
    (hFA : containsSub FAmark (pyStrip (oracle (iter + 1))) = false)
    (hAI : containsSub AImark (pyStrip (oracle (iter + 1))) = true)
    (hact : action_name (pyStrip (oracle (iter + 1))) = .ok a)
    (htool : tools a = none) :
    loopRunAux tools oracle (fuel + 1) pad iter calls
      = .done ⟨.unknownTool, none, pad ++ '\n' :: pyStrip (oracle (iter + 1)),
          iter + 1, calls⟩ := by
  have hstep := stepBody_unknown_tool tools pad (oracle (iter + 1)) a hFA hAI hact htool
  rw [loopRunAux_of_step_break tools oracle fuel pad _ iter calls [] none (by omega) hstep]
  simp

/-- Witness for C4: the unknown tool `frobnicate` with an action input that
is not JSON at all; the run still ends cleanly in the unknown-tool abort. -/
theorem unknown_tool_aborts_cleanly_witness :
    agent_main tools0 (fun _ => "Action: frobnicate\nAction Input: no json".data) []
      = .done ⟨.unknownTool, none,
          '\n' :: pyStrip ("Action: frobnicate\nAction Input: no json".data), 1, []⟩ := by
  have h := unknown_tool_aborts_cleanly tools0
    (fun _ => "Action: frobnicate\nAction Input: no json".data) 10 [] 0 []
    ("frobnicate".data) (by omega) (by decide) (by decide) (by rfl) (by rfl)
  exact h

/-- On the code, the claim C7's "appended verbatim" is false: the completion
is stripped before being appended (with a newline separator), so a raw
completion with surrounding whitespace does not occur in the transcript
at all after its iteration. -/
theorem completion_appended_stripped_not_verbatim :
    stepBody tools0 [] (" Thought: pondering  ".data)
      = .ok ⟨'\n' :: "Thought: pondering".data, none, [], .continueLoop⟩ ∧
    containsSub (" Thought: pondering  ".data) ('\n' :: "Thought: pondering".data)
      = false :=
  ⟨rfl, by decide⟩

/-- Claim C7 (amended): on every iteration the completion text, trimmed of
surrounding whitespace and preceded by a newline separator, is appended to
the transcript before classification; a response containing neither marker
is appended that way and the loop continues to the next iteration without
terminating and without dispatching a tool. -/
theorem completion_append_stripped_then_continue :
    (∀ (tools : List Char → Option ToolFun) (pad raw : List Char),
      containsSub FAmark (pyStrip raw) = false →
      containsSub AImark (pyStrip raw) = false →
      stepBody tools pad raw
        = .ok ⟨pad ++ '\n' :: pyStrip raw, none, [], .continueLoop⟩) ∧
    (∀ (tools : List Char → Option ToolFun) (oracle : Nat → List Char)
      (fuel : Nat) (pad : List Char) (iter : Nat) (calls : List (List Char × Json)),
      iter + 1 ≤ 10 →
      containsSub FAmark (pyStrip (oracle (iter + 1))) = false →
      containsSub AImark (pyStrip (oracle (iter + 1))) = false →
      loopRunAux tools oracle (fuel + 1) pad iter calls
        = loopRunAux tools oracle fuel (pad ++ '\n' :: pyStrip (oracle (iter + 1)))
            (iter + 1) calls) := by
  constructor
  · exact stepBody_no_markers
  · intro tools oracle fuel pad iter calls hiter hFA hAI
    rw [loopRunAux_of_step_continue tools oracle fuel pad _ iter calls [] (by omega)
      (stepBody_no_markers tools pad (oracle (iter + 1)) hFA hAI)]
    simp

/-- Witness for C7 (amended) at a concrete marker-free response. -/
theorem completion_append_stripped_then_continue_witness :
    stepBody tools0 ("P".data) ("Thought: mulling".data)
      = .ok ⟨"P".data ++ '\n' :: pyStrip ("Thought: mulling".data), none, [],
          .continueLoop⟩ :=
  completion_append_stripped_then_continue.1 tools0 ("P".data)
    ("Thought: mulling".data) (by decide) (by decide)

theorem loopRunAux_maxIter_requests (tools : List Char → Option ToolFun)
    (oracle : Nat → List Char) :
    ∀ fuel pad iter calls r,
      loopRunAux tools oracle fuel pad iter calls = .done r →
      r.outcome = .maxIterations → iter ≤ 10 →
      r.requests = 11 ∧ r.answer = none := by
  intro fuel
  induction fuel with
  | zero =>
    intro pad iter calls r h
    exact absurd h (by simp [loopRunAux])
  | succ fuel ih =>
    intro pad iter calls r h houtcome hiter
    simp only [loopRunAux] at h
    by_cases hcap : iter + 1 > 10
    · rw [if_pos hcap] at h
      injection h with h3
      subst h3
      exact ⟨by show iter + 1 = 11; omega, rfl⟩
    · rw [if_neg hcap] at h
      cases hstep : stepBody tools pad (oracle (iter + 1)) with
      | error e =>
        rw [hstep] at h
        exact absurd h (by simp)
      | ok out =>
        rw [hstep] at h
        match hout : out with
        | ⟨p, ans, cs, nx⟩ =>
          cases nx with
          | breakUnknownTool =>
            have h2 : RunOut.done ⟨.unknownTool, ans, p, iter + 1, calls ++ cs⟩
                = .done r := h
            injection h2 with h3
            subst h3
            exact absurd houtcome (by simp)
          | continueLoop =>
            cases ans with
            | some a =>
              have h2 : RunOut.done ⟨.finished, some a, p, iter + 1, calls ++ cs⟩
                  = .done r := h
              injection h2 with h3
              subst h3
              exact absurd houtcome (by simp)
            | none =>
              have h2 : loopRunAux tools oracle fuel p (iter + 1) (calls ++ cs)
                  = .done r := h
              exact ih p (iter + 1) (calls ++ cs) r h2 houtcome (by omega)

theorem loopRunAux_no_marker_run (tools : List Char → Option ToolFun)
    (oracle : Nat → List Char)
    (hno : ∀ n, containsSub FAmark (pyStrip (oracle n)) = false ∧
      containsSub AImark (pyStrip (oracle n)) = false) :
    ∀ fuel iter pad calls, iter + fuel = 11 → iter ≤ 10 →
      ∃ p, loopRunAux tools oracle fuel pad iter calls
        = .done ⟨.maxIterations, none, p, 11, calls⟩ ∧ pad <+: p := by
  intro fuel
  induction fuel with
  | zero =>
    intro iter pad calls hsum hiter
    omega
  | succ fuel ih =>
    intro iter pad calls hsum hiter
    by_cases hcap : iter + 1 > 10
    · refine ⟨pad, ?_, List.prefix_rfl⟩
      rw [loopRunAux_cap tools oracle fuel pad iter calls hcap]
      have h11 : iter + 1 = 11 := by omega
      rw [h11]
    · rw [loopRunAux_of_step_continue tools oracle fuel pad _ iter calls [] hcap
        (stepBody_no_markers tools pad (oracle (iter + 1)) (hno (iter + 1)).1
          (hno (iter + 1)).2)]
      obtain ⟨p, hp, hpre⟩ := ih (iter + 1) (pad ++ '\n' :: pyStrip (oracle (iter + 1)))
        (calls ++ []) (by omega) (by omega)
      refine ⟨p, ?_, (List.prefix_append pad _).trans hpre⟩
      rw [hp]
      simp

/-- The code violates claim C3's request bound: with completions that never
contain any marker, the run reaches the max-iterations abort only after
issuing 11 completion requests — the request of the 11th iteration is made
before the cap check — not at most 10 as claimed. -/
theorem max_iterations_makes_eleven_requests :
    runOutcome (agent_main tools0 (fun _ => "Thought: hmm".data) [])
      = some .maxIterations ∧
    runRequests (agent_main tools0 (fun _ => "Thought: hmm".data) []) = 11 ∧
    ¬ runRequests (agent_main tools0 (fun _ => "Thought: hmm".data) []) ≤ 10 :=
  ⟨rfl, rfl, by decide⟩

/-- Claim C3 (amended): when no completion ever contains "Final Answer:"
(and no other terminal condition occurs), the loop issues exactly 11 model
requests — the completion that triggers the cap is still fetched but never
classified — then ends in the max-iterations abort without raising,
carrying the accumulated transcript (the printed diagnostic) and no
answer; and every max-iterations abort of a run has issued exactly 11
requests. -/
theorem max_iterations_requests_eq_eleven :
    (∀ (tools : List Char → Option ToolFun) (oracle : Nat → List Char)
      (pad : List Char),
      (∀ n, containsSub FAmark (pyStrip (oracle n)) = false ∧
        containsSub AImark (pyStrip (oracle n)) = false) →
      ∃ p, agent_main tools oracle pad = .done ⟨.maxIterations, none, p, 11, []⟩ ∧
        pad <+: p) ∧
    (∀ (tools : List Char → Option ToolFun) (oracle : Nat → List Char)
      (pad : List Char) (r : RunResult),
      agent_main tools oracle pad = .done r → r.outcome = .maxIterations →
      r.requests = 11 ∧ r.answer = none) := by
  constructor
  · intro tools oracle pad hno
    exact loopRunAux_no_marker_run tools oracle hno 11 0 pad [] (by omega) (by omega)
  · intro tools oracle pad r h houtcome
    exact loopRunAux_maxIter_requests tools oracle 11 pad 0 [] r h houtcome (by omega)

/-- Witness for C3 (amended) at a concrete marker-free oracle. -/
theorem max_iterations_requests_eq_eleven_witness :
    runOutcome (agent_main tools0 (fun _ => "Thought: still thinking".data) [])
      = some .maxIterations ∧
    runRequests (agent_main tools0 (fun _ => "Thought: still thinking".data) [])
      = 11 := by
  obtain ⟨p, hp, _⟩ := max_iterations_requests_eq_eleven.1 tools0
    (fun _ => "Thought: still thinking".data) []
    (fun n => ⟨rfl, rfl⟩)
  rw [hp]
  exact ⟨rfl, rfl⟩

/-- The code violates claim C2's precedence: a response containing both
"Final Answer:" and an action marker naming a known tool records the final
answer but still invokes the tool — the two marker checks are independent
`if` statements, not an `elif` chain, so Final Answer does not suppress
dispatch. -/
theorem final_answer_action_both_invokes_tool :
    containsSub FAmark
      (pyStrip ("Final Answer: X\nAction: get_weather\nAction Input: \x7b\"city\": \"Paris\"\x7d".data)) = true ∧
    containsSub AImark
      (pyStrip ("Final Answer: X\nAction: get_weather\nAction Input: \x7b\"city\": \"Paris\"\x7d".data)) = true ∧
    runCallCount (agent_main tools0
      (fun _ => "Final Answer: X\nAction: get_weather\nAction Input: \x7b\"city\": \"Paris\"\x7d".data) []) = 1 ∧
    runOutcome (agent_main tools0
      (fun _ => "Final Answer: X\nAction: get_weather\nAction Input: \x7b\"city\": \"Paris\"\x7d".data) [])
      = some .finished :=
  ⟨rfl, rfl, rfl, rfl⟩

/-- Claim C2 (amended): when a response contains both "Final Answer:" and
the action markers, the final answer is recorded and the run ends with it
after this iteration (one request, no further iterations), but the Final
Answer does not suppress the action branch: a known tool is still invoked
once and its observation appended before the loop exits. -/
theorem final_answer_with_action_still_dispatches
    (tools : List Char → Option ToolFun) (oracle : Nat → List Char)
    (pad a inp res ans : List Char) (t : ToolFun) (args : Json)
    (hFA : containsSub FAmark (pyStrip (oracle 1)) = true)
    (hans : final_answer_of (pyStrip (oracle 1)) = .ok ans)
    (hAI : containsSub AImark (pyStrip (oracle 1)) = true)
    (hact : action_name (pyStrip (oracle 1)) = .ok a)
    (hinp : action_input_of (pyStrip (oracle 1)) = .ok inp)
    (htool : tools a = some t)
    (hargs : extract_json inp = .ok args)
    (hres : t args = .ok res) :
    agent_main tools oracle pad
      = .done ⟨.finished, some ans,
          (pad ++ '\n' :: pyStrip (oracle 1)) ++ OBSmark ++ res, 1, [(a, args)]⟩ := by
  rw [agent_main]
  exact loopRunAux_of_step_answer tools oracle 10 pad _ ans 0 [] [(a, args)] (by omega)
    (stepBody_dispatch_ok_with_answer tools pad (oracle 1) a inp res ans t args
      hFA hans hAI hact hinp htool hargs hres)

/-- Witness for C2 (amended): both markers present, the known `get_weather`
tool is invoked and the run still ends with the recorded final answer. -/
theorem final_answer_with_action_still_dispatches_witness :
    agent_main tools0
      (fun _ => "Final Answer: 42\nAction: get_weather\nAction Input: \x7b\"city\": \"Tokyo\"\x7d".data) []
      = .done ⟨.finished,
          some ("42\nAction: get_weather\nAction Input: \x7b\"city\": \"Tokyo\"\x7d".data),
          ([] ++ '\n' :: pyStrip
            ("Final Answer: 42\nAction: get_weather\nAction Input: \x7b\"city\": \"Tokyo\"\x7d".data))
            ++ OBSmark
            ++ json_dumps (.obj [("temperature".data, .num 25),
                ("weather".data, .str ("sunny".data)),
                ("city".data, .str ("Tokyo".data))]),
          1, [("get_weather".data, .obj [("city".data, .str ("Tokyo".data))])]⟩ :=
  final_answer_with_action_still_dispatches tools0
    (fun _ => "Final Answer: 42\nAction: get_weather\nAction Input: \x7b\"city\": \"Tokyo\"\x7d".data)
    [] ("get_weather".data) ("\x7b\"city\": \"Tokyo\"\x7d".data)
    (json_dumps (.obj [("temperature".data, .num 25),
      ("weather".data, .str ("sunny".data)), ("city".data, .str ("Tokyo".data))]))
    ("42\nAction: get_weather\nAction Input: \x7b\"city\": \"Tokyo\"\x7d".data)
    get_weather_fn (.obj [("city".data, .str ("Tokyo".data))])
    (by rfl) (by rfl) (by rfl) (by rfl) (by rfl) (by rfl) (by rfl) (by rfl)

/-- The code violates claim C6's "everything after the marker": when the
marker occurs twice, `split("Final Answer:")[1]` yields only the text
between the first and the second occurrence, not the full remainder of
the response after the first occurrence. -/
theorem final_answer_truncated_at_second_marker :
    ("Final Answer: A\nFinal Answer: B".data = FAmark ++ " A\nFinal Answer: B".data) ∧
    final_answer_of ("Final Answer: A\nFinal Answer: B".data) = .ok ("A".data) ∧
    pyStrip (" A\nFinal Answer: B".data) = "A\nFinal Answer: B".data ∧
    ("A".data ≠ "A\nFinal Answer: B".data) ∧
    stepBody tools0 [] ("Final Answer: A\nFinal Answer: B".data)
      = .ok ⟨'\n' :: "Final Answer: A\nFinal Answer: B".data, some ("A".data), [],
          .continueLoop⟩ :=
  ⟨rfl, rfl, rfl, by decide, rfl⟩

theorem pySplitAux_nil (sep : List Char) (hsep : sep ≠ []) :
    ∀ fuel acc, pySplitAux sep fuel [] acc = [acc.reverse] := by
  intro fuel acc
  match fuel with
  | 0 => simp [pySplitAux]
  | f + 1 =>
    have hp : sep.isPrefixOf ([] : List Char) = false := by
      cases sep with
      | nil => exact absurd rfl hsep
      | cons x xs => rfl
    simp [pySplitAux, hp]

theorem pySplitAux_fuel_irrel (sep : List Char) (hsep : sep ≠ []) :
    ∀ fuel fuel2 s acc, s.length ≤ fuel → s.length ≤ fuel2 →
      pySplitAux sep fuel s acc = pySplitAux sep fuel2 s acc := by
  have hsl : 1 ≤ sep.length := by
    cases sep with
    | nil => exact absurd rfl hsep
    | cons x xs => simp
  intro fuel
  induction fuel with
  | zero =>
    intro fuel2 s acc hl _
    have hs : s = [] := List.length_eq_zero.mp (Nat.le_zero.mp hl)
    subst hs
    rw [pySplitAux_nil sep hsep fuel2 acc]
    simp [pySplitAux]
  | succ fuel ih =>
    intro fuel2 s acc hl hl2
    match s with
    | [] => rw [pySplitAux_nil sep hsep _ acc, pySplitAux_nil sep hsep _ acc]
    | c :: rest =>
      match fuel2 with
      | 0 =>
        exfalso
        simp only [List.length_cons] at hl2
        omega
      | f2 + 1 =>
        by_cases hp : sep.isPrefixOf (c :: rest) = true
        · rw [show pySplitAux sep (fuel + 1) (c :: rest) acc
              = acc.reverse :: pySplitAux sep fuel ((c :: rest).drop sep.length) [] from by
            simp [pySplitAux, hp]]
          rw [show pySplitAux sep (f2 + 1) (c :: rest) acc
              = acc.reverse :: pySplitAux sep f2 ((c :: rest).drop sep.length) [] from by
            simp [pySplitAux, hp]]
          rw [ih f2 ((c :: rest).drop sep.length) []
            (by
              simp only [List.length_drop, List.length_cons]
              simp only [List.length_cons] at hl
              omega)
            (by
              simp only [List.length_drop, List.length_cons]
              simp only [List.length_cons] at hl2
              omega)]
        · have hp2 : sep.isPrefixOf (c :: rest) = false := by
            revert hp; cases sep.isPrefixOf (c :: rest) <;> simp
          rw [show pySplitAux sep (fuel + 1) (c :: rest) acc
              = pySplitAux sep fuel rest (c :: acc) from by simp [pySplitAux, hp2]]
          rw [show pySplitAux sep (f2 + 1) (c :: rest) acc
              = pySplitAux sep f2 rest (c :: acc) from by simp [pySplitAux, hp2]]
          exact ih f2 rest (c :: acc)
            (by simp only [List.length_cons] at hl; omega)
            (by simp only [List.length_cons] at hl2; omega)

theorem sep_not_prefix_mid (sep a b : List Char) (hsep : sep ≠ []) (hne : a ≠ [])
    (h1 : containsSub sep (a ++ sep.dropLast) = false) :
    sep.isPrefixOf (a ++ sep ++ b) = false := by
  have hsl : 1 ≤ sep.length := by
    cases sep with
    | nil => exact absurd rfl hsep
    | cons x xs => simp
  have hal : 1 ≤ a.length := by
    cases a with
    | nil => exact absurd rfl hne
    | cons x xs => simp
  by_contra hne2
  have hp2 : sep <+: a ++ sep ++ b := by
    rw [← List.isPrefixOf_iff_prefix]
    revert hne2; cases sep.isPrefixOf (a ++ sep ++ b) <;> simp
  have htake : (a ++ sep ++ b).take (a.length + sep.length - 1) = a ++ sep.dropLast := by
    rw [List.append_assoc, List.take_append_eq_append_take,
      List.take_of_length_le (by omega), List.take_append_eq_append_take,
      List.dropLast_eq_take]
    have h0 : a.length + sep.length - 1 - a.length - sep.length = 0 := by omega
    have h2 : a.length + sep.length - 1 - a.length = sep.length - 1 := by omega
    rw [h0, h2, List.take_zero, List.append_nil]
  have hpre : sep <+: (a ++ sep ++ b).take (a.length + sep.length - 1) := by
    rw [List.prefix_take_iff]
    exact ⟨by simpa [List.append_assoc] using hp2, by omega⟩
  rw [htake] at hpre
  have hc : containsSub sep (a ++ sep.dropLast) = true :=
    containsSub_of_isPrefixOf (List.isPrefixOf_iff_prefix.mpr hpre)
  rw [hc] at h1
  exact absurd h1 (by simp)

theorem pySplitAux_first_cons (sep : List Char) (hsep : sep ≠ []) :
    ∀ fuel a acc (b : List Char), (a ++ sep ++ b).length ≤ fuel →
      containsSub sep (a ++ sep.dropLast) = false →
      pySplitAux sep fuel (a ++ sep ++ b) acc
        = (acc.reverse ++ a) :: pySplitAux sep b.length b [] := by
  have hsl : 1 ≤ sep.length := by
    cases sep with
    | nil => exact absurd rfl hsep
    | cons x xs => simp
  intro fuel
  induction fuel with
  | zero =>
    intro a acc b hlen _
    exfalso
    simp only [List.length_append] at hlen
    omega
  | succ fuel ih =>
    intro a acc b hlen h1
    match a with
    | [] =>
      have hp : sep.isPrefixOf (sep ++ b) = true :=
        List.isPrefixOf_iff_prefix.mpr (List.prefix_append sep b)
      simp only [List.nil_append, pySplitAux, hp, if_true]
      rw [List.drop_left]
      rw [pySplitAux_fuel_irrel sep hsep fuel b.length b []
        (by simp only [List.length_append] at hlen; omega) le_rfl]
      simp
    | c :: a' =>
      have hassoc : (c :: a') ++ sep ++ b = c :: (a' ++ sep ++ b) := by simp
      have hp : sep.isPrefixOf (c :: (a' ++ sep ++ b)) = false := by
        have h2 := sep_not_prefix_mid sep (c :: a') b hsep (by simp) h1
        simpa using h2
      rw [hassoc]
      have hstep : pySplitAux sep (fuel + 1) (c :: (a' ++ sep ++ b)) acc
          = pySplitAux sep fuel (a' ++ sep ++ b) (c :: acc) := by
        simp only [pySplitAux, hp]
        simp
      rw [hstep]
      rw [ih a' (c :: acc) b
        (by simp only [List.length_append, List.length_cons] at hlen ⊢; omega)
        (containsSub_false_cons (by simpa using h1))]
      simp

theorem pySplit_first_cons (sep a b : List Char) (hsep : sep ≠ [])
    (ha : containsSub sep (a ++ sep.dropLast) = false) :
    pySplit sep (a ++ sep ++ b) = a :: pySplit sep b := by
  rw [pySplit, if_neg hsep, pySplit, if_neg hsep,
    pySplitAux_first_cons sep hsep ((a ++ sep ++ b).length) a [] b le_rfl ha]
  simp

/-- Claim C6 (amended): for every response containing "Final Answer:", the
final answer recorded is the trimmed text between the first occurrence of
the marker and the next occurrence of the marker — or everything after the
marker, trimmed, when the marker occurs only once.  The first conjunct
covers the single-occurrence case; the second covers a response whose
remainder after the first marker contains the marker again, with no
restriction on what follows that next occurrence. -/
theorem final_answer_between_markers :
    (∀ (tools : List Char → Option ToolFun) (pad raw a b : List Char),
      pyStrip raw = a ++ FAmark ++ b →
      containsSub FAmark (a ++ ("Final Answer".data)) = false →
      containsSub FAmark b = false →
      containsSub AImark (pyStrip raw) = false →
      final_answer_of (pyStrip raw) = .ok (pyStrip b) ∧
      stepBody tools pad raw
        = .ok ⟨pad ++ '\n' :: pyStrip raw, some (pyStrip b), [], .continueLoop⟩) ∧
    (∀ (tools : List Char → Option ToolFun) (pad raw a b1 b2 : List Char),
      pyStrip raw = a ++ FAmark ++ (b1 ++ FAmark ++ b2) →
      containsSub FAmark (a ++ ("Final Answer".data)) = false →
      containsSub FAmark (b1 ++ ("Final Answer".data)) = false →
      containsSub AImark (pyStrip raw) = false →
      final_answer_of (pyStrip raw) = .ok (pyStrip b1) ∧
      stepBody tools pad raw
        = .ok ⟨pad ++ '\n' :: pyStrip raw, some (pyStrip b1), [], .continueLoop⟩) := by
  have hdl : FAmark.dropLast = ("Final Answer".data) := by decide
  constructor
  · intro tools pad raw a b hsplit ha hb hAI
    have hFA : containsSub FAmark (pyStrip raw) = true := by
      rw [hsplit]
      exact (containsSub_iff_parts FAmark _).mpr ⟨a, b, rfl⟩
    have hparts : pySplit FAmark (a ++ FAmark ++ b) = [a, b] :=
      pySplit_parts FAmark a b (by decide) (by rw [hdl]; exact ha) hb
    have hans : final_answer_of (pyStrip raw) = .ok (pyStrip b) := by
      rw [hsplit, final_answer_of, hparts]
      rfl
    exact ⟨hans, stepBody_final_answer_only tools pad raw (pyStrip b) hFA hans hAI⟩
  · intro tools pad raw a b1 b2 hsplit ha hb1 hAI
    have hFA : containsSub FAmark (pyStrip raw) = true := by
      rw [hsplit]
      exact (containsSub_iff_parts FAmark _).mpr ⟨a, b1 ++ FAmark ++ b2, rfl⟩
    have hparts : pySplit FAmark (a ++ FAmark ++ (b1 ++ FAmark ++ b2))
        = a :: b1 :: pySplit FAmark b2 := by
      rw [pySplit_first_cons FAmark a (b1 ++ FAmark ++ b2) (by decide)
        (by rw [hdl]; exact ha)]
      rw [pySplit_first_cons FAmark b1 b2 (by decide) (by rw [hdl]; exact hb1)]
    have hans : final_answer_of (pyStrip raw) = .ok (pyStrip b1) := by
      rw [hsplit, final_answer_of, hparts]
      rfl
    exact ⟨hans, stepBody_final_answer_only tools pad raw (pyStrip b1) hFA hans hAI⟩

/-- Witness for C6 (amended), exercising both conjuncts: with the marker
occurring twice the recorded answer is the trimmed text up to the second
occurrence, and with the marker occurring once it is everything after the
marker, trimmed. -/
theorem final_answer_between_markers_witness :
    (final_answer_of (pyStrip ("Final Answer: A\nFinal Answer: B".data))
        = .ok (pyStrip (" A\n".data)) ∧
      stepBody tools0 [] ("Final Answer: A\nFinal Answer: B".data)
        = .ok ⟨[] ++ '\n' :: pyStrip ("Final Answer: A\nFinal Answer: B".data),
            some (pyStrip (" A\n".data)), [], .continueLoop⟩) ∧
    (final_answer_of (pyStrip ("Final Answer: done".data))
        = .ok (pyStrip (" done".data)) ∧
      stepBody tools0 [] ("Final Answer: done".data)
        = .ok ⟨[] ++ '\n' :: pyStrip ("Final Answer: done".data),
            some (pyStrip (" done".data)), [], .continueLoop⟩) :=
  ⟨final_answer_between_markers.2 tools0 [] ("Final Answer: A\nFinal Answer: B".data)
      [] (" A\n".data) (" B".data) rfl (by decide) (by decide) (by decide),
    final_answer_between_markers.1 tools0 [] ("Final Answer: done".data)
      [] (" done".data) rfl (by decide) (by decide) (by decide)⟩

/-- Claim C9: a known tool is dispatched by applying its implementation to
the extracted arguments object (the embedding of Python's keyword
expansion `tool(**tool_arguments)`), recording the call and appending its
observation; and any exception — raised by the tool implementation or by
the JSON extraction of its arguments — propagates unmodified out of the
loop, with no internal catch or retry: the run ends `.raised` with exactly
that error payload. -/
theorem tool_dispatch_and_exception_propagation :
    (∀ (tools : List Char → Option ToolFun) (pad raw a inp res : List Char)
      (t : ToolFun) (args : Json),
      containsSub FAmark (pyStrip raw) = false →
      containsSub AImark (pyStrip raw) = true →
      action_name (pyStrip raw) = .ok a →
      action_input_of (pyStrip raw) = .ok inp →
      tools a = some t →
      extract_json inp = .ok args →
      t args = .ok res →
      stepBody tools pad raw
        = .ok ⟨(pad ++ '\n' :: pyStrip raw) ++ OBSmark ++ res, none, [(a, args)],
            .continueLoop⟩) ∧
    (∀ (tools : List Char → Option ToolFun) (oracle : Nat → List Char)
      (pad a inp e : List Char) (t : ToolFun) (args : Json),
      containsSub FAmark (pyStrip (oracle 1)) = false →
      containsSub AImark (pyStrip (oracle 1)) = true →
      action_name (pyStrip (oracle 1)) = .ok a →
      action_input_of (pyStrip (oracle 1)) = .ok inp →
      tools a = some t →
      extract_json inp = .ok args →
      t args = .error e →
      agent_main tools oracle pad = .raised (.toolError e)) ∧
    (∀ (tools : List Char → Option ToolFun) (oracle : Nat → List Char)
      (pad a inp : List Char) (t : ToolFun) (e : ExtractErr),
      containsSub FAmark (pyStrip (oracle 1)) = false →
      containsSub AImark (pyStrip (oracle 1)) = true →
      action_name (pyStrip (oracle 1)) = .ok a →
      action_input_of (pyStrip (oracle 1)) = .ok inp →
      tools a = some t →
      extract_json inp = .error e →
      agent_main tools oracle pad = .raised (.extractError e)) := by
  refine ⟨stepBody_dispatch_ok, ?_, ?_⟩
  · intro tools oracle pad a inp e t args hFA hAI hact hinp htool hargs hres
    rw [agent_main]
    exact loopRunAux_of_step_error tools oracle 10 pad 0 [] (.toolError e) (by omega)
      (stepBody_tool_raises tools pad (oracle 1) a inp e t args
        hFA hAI hact hinp htool hargs hres)
  · intro tools oracle pad a inp t e hFA hAI hact hinp htool hargs
    rw [agent_main]
    exact loopRunAux_of_step_error tools oracle 10 pad 0 [] (.extractError e) (by omega)
      (stepBody_extract_raises tools pad (oracle 1) a inp t e
        hFA hAI hact hinp htool hargs)

/-- Witness for C9: `get_weather` called with an empty arguments object
raises the missing-argument `TypeError`, which propagates out of the run
unmodified. -/
theorem tool_dispatch_and_exception_propagation_witness :
    agent_main tools0
      (fun _ => "Action: get_weather\nAction Input: \x7b\x7d".data) []
      = .raised (.toolError
          ("TypeError: get_weather() missing 1 required positional argument: city".data)) :=
  tool_dispatch_and_exception_propagation.2.1 tools0
    (fun _ => "Action: get_weather\nAction Input: \x7b\x7d".data) []
    ("get_weather".data) ("\x7b\x7d".data)
    ("TypeError: get_weather() missing 1 required positional argument: city".data)
    get_weather_fn (.obj [])
    (by rfl) (by rfl) (by rfl) (by rfl) (by rfl) (by rfl) (by rfl)

/-! ## Sanity checks of the embedding on concrete values -/

example : pyStrip ("  abc \n".data) = "abc".data := by decide
example : containsSub ("bc".data) ("abcd".data) = true := by decide
example : containsSub ("Action:".data) ("Action Input: x".data) = false := by decide
example : pySplit ("b".data) ("abcbd".data) = ["a".data, "c".data, "d".data] := by decide
example : pySplit ("aa".data) ("aaa".data) = [[], "a".data] := by decide
example : pySplit ("x".data) ("abc".data) = ["abc".data] := by decide
example : pySplit ("ab".data) ("xab".data) = ["x".data, []] := by decide
example : extract_json ("noise \x7b\"a\": \x7b\"b\": 1\x7d\x7d trailing".data) =
    .ok (.obj [("a".data, .obj [("b".data, .num 1)])]) := rfl
example : extract_json ("no braces here".data) = .error .notFound := rfl
example : extract_json ("\x7b\"a\": 1".data) = .error .incomplete := rfl
example : extract_json ("x \x7boops\x7d y".data) = .error .malformed := rfl
example : extract_json ("\x7b\"a\": \"\x7d\"\x7d".data) = .error .malformed := rfl
example : runOutcome (agent_main tools0 (fun _ => "Thought: hmm".data) []) = some .maxIterations := rfl
example : runRequests (agent_main tools0 (fun _ => "Thought: hmm".data) []) = 11 := rfl
example : runAnswer (agent_main tools0 (fun _ => "Final Answer: 42".data) []) = some ("42".data) := rfl
example : runRequests (agent_main tools0 (fun _ => "Final Answer: 42".data) []) = 1 := rfl
example : agent_main tools0 (fun _ => "Action Input: \x7b\x7d".data) [] = .raised .indexError := rfl
example :
    runOutcome (agent_main tools0
      (fun _ => "Action: frobnicate\nAction Input: \x7b\x7d".data) []) = some .unknownTool := rfl
example :
    runCallCount (agent_main tools0
      (fun _ => "Final Answer: X\nAction: get_weather\nAction Input: \x7b\"city\": \"Paris\"\x7d".data) []) = 1 := rfl
example :
    runAnswer (agent_main tools0
      (fun _ => "Final Answer: X\nAction: get_weather\nAction Input: \x7b\"city\": \"Paris\"\x7d".data) [])
      = some ("X\nAction: get_weather\nAction Input: \x7b\"city\": \"Paris\"\x7d".data) := rfl
